import Mathlib

/-!
Verification development for the SnakeGame repository (src/SnakeGame/src).

Shallow embedding conventions:
- Python floats are embedded as rationals; Python ints as integers.
- Python `int(x)` (truncation toward zero) is `pyInt`; Python `round`
  (banker rounding, half to even) is `pyRound`; Python `//` is `Int.fdiv`.
- The global `random` module is embedded as an explicit stream `rng : Nat -> Nat`
  consumed sequentially; `random.randrange(0, stop, step)` is `randrange_step`,
  which keeps the exact support of the Python call.
- The `while self.move_accumulator >= segment_size` loop of `Snake.update` is
  the fueled loop `moveLoop`; the fuel passed by `Snake.update` is the exact
  iteration count of the Python loop when `0 < segment_size` (proved in the
  lemmas below).  When `segment_size <= 0` and the guard holds, the Python loop
  never terminates; no theorem below exercises that case.
- Code raising an exception has no counterpart here where the repository can
  never reach it: `self.segments[0]` on an empty snake is embedded via `headI`
  and every theorem touching the head assumes a nonempty segment list.
-/

attribute [local semireducible] Rat.add Rat.mul Rat.sub Rat.inv

/-- State of `Snake` (src/SnakeGame/src/snake.py, `Snake.__init__` attributes). -/
structure Snake where
  segment_size : ℤ
  screen_width : ℤ
  screen_height : ℤ
  color : ℤ × ℤ × ℤ
  border_radius : ℤ
  direction : ℤ × ℤ
  speed : ℚ
  move_accumulator : ℚ
  grow_pending : ℤ
  segments : List (ℚ × ℚ)
deriving DecidableEq

/-- `Snake.__init__` (snake.py lines 25-65): direction down, speed 20 px/s,
head at horizontal center, `length*segment_size` from the top, body upward. -/
def Snake.init (screen_width screen_height : ℤ) (length : ℕ) (segment_size : ℤ) : Snake :=
  { segment_size := segment_size
    screen_width := screen_width
    screen_height := screen_height
    color := (0, 100, 255)
    border_radius := 5
    direction := (0, 1)
    speed := 20
    move_accumulator := 0
    grow_pending := 0
    segments := (List.range length).map (fun (i : ℕ) =>
      (((Int.fdiv screen_width 2 : ℤ) : ℚ),
       (((length : ℤ) * segment_size - (i : ℤ) * segment_size : ℤ) : ℚ))) }

/-- One iteration of the while-loop body of `Snake.update` (snake.py lines
111-129): insert the new head, keep the tail when growth is pending (and
decrement it) else pop the tail, and subtract one segment size from the
accumulator. -/
def Snake.loopStep (s : Snake) : Snake :=
  let nh : ℚ × ℚ :=
    (s.segments.headI.1 + (s.direction.1 : ℚ) * (s.segment_size : ℚ),
     s.segments.headI.2 + (s.direction.2 : ℚ) * (s.segment_size : ℚ))
  if 0 < s.grow_pending then
    { s with segments := nh :: s.segments,
             grow_pending := s.grow_pending - 1,
             move_accumulator := s.move_accumulator - (s.segment_size : ℚ) }
  else
    { s with segments := (nh :: s.segments).dropLast,
             move_accumulator := s.move_accumulator - (s.segment_size : ℚ) }

/-- The `while self.move_accumulator >= segment_size` loop of `Snake.update`,
with explicit fuel. -/
def Snake.moveLoop : ℕ → Snake → Snake
  | 0, s => s
  | n + 1, s =>
    if (s.segment_size : ℚ) ≤ s.move_accumulator then Snake.moveLoop n (Snake.loopStep s)
    else s

/-- `Snake.update` (snake.py lines 95-129): no-op when `delta_time <= 0`,
otherwise accumulate `speed * delta_time` and run the while loop.  The fuel
`⌊accumulator / segment_size⌋` is exactly the number of iterations the Python
loop performs when `0 < segment_size` (see `Snake.moveLoop_acc`). -/
def Snake.update (delta_time : ℚ) (s : Snake) : Snake :=
  if delta_time ≤ 0 then s
  else
    let s1 : Snake := { s with move_accumulator := s.move_accumulator + s.speed * delta_time }
    Snake.moveLoop (Rat.floor (s1.move_accumulator / (s1.segment_size : ℚ))).toNat s1

/-- `Snake._is_opposite` (snake.py lines 131-142). -/
def Snake.is_opposite (d1 d2 : ℤ × ℤ) : Bool :=
  d1.1 == -d2.1 && d1.2 == -d2.2

/-- `Snake._move_one_segment` (snake.py lines 144-157): insert a new head one
segment ahead and pop the tail, ignoring both the accumulator and the pending
growth counter. -/
def Snake.move_one_segment (s : Snake) : Snake :=
  { s with segments :=
      ((s.segments.headI.1 + (s.direction.1 : ℚ) * (s.segment_size : ℚ),
        s.segments.headI.2 + (s.direction.2 : ℚ) * (s.segment_size : ℚ)) :: s.segments).dropLast }

/-- `Snake.change_direction` (snake.py lines 159-178). -/
def Snake.change_direction (new_direction : ℤ × ℤ) (s : Snake) : Snake :=
  if Snake.is_opposite s.direction new_direction then s
  else if s.direction == new_direction then Snake.move_one_segment s
  else { s with direction := new_direction }

/-- `Snake.grow` (snake.py lines 180-184). -/
def Snake.grow (s : Snake) : Snake :=
  { s with grow_pending := s.grow_pending + 1 }

/-- `Snake.check_boundary_collision` (snake.py lines 186-199). -/
def Snake.check_boundary_collision (s : Snake) : Bool :=
  decide (s.segments.headI.1 < 0) ||
  decide ((s.screen_width : ℚ) < s.segments.headI.1 + (s.segment_size : ℚ)) ||
  decide (s.segments.headI.2 < 0) ||
  decide ((s.screen_height : ℚ) < s.segments.headI.2 + (s.segment_size : ℚ))

/-- Python `int(.)` on a rational: truncation toward zero. -/
def pyInt (q : ℚ) : ℤ :=
  Int.tdiv q.num (q.den : ℤ)

/-- A pygame rectangle (position and extent, integer pixels). -/
structure Rect where
  x : ℤ
  y : ℤ
  w : ℤ
  h : ℤ
deriving DecidableEq

/-- `pygame.Rect.colliderect`: true when the two rectangles overlap with
positive area (rectangles that merely share an edge do not collide). -/
def Rect.colliderect (a b : Rect) : Bool :=
  decide (a.x < b.x + b.w) && decide (b.x < a.x + a.w) &&
  decide (a.y < b.y + b.h) && decide (b.y < a.y + a.h)

/-- `Snake.check_self_collision` (snake.py lines 222-240): head rectangle
(with truncated coordinates) against every non-head segment rectangle. -/
def Snake.check_self_collision (s : Snake) : Bool :=
  if s.segments.length ≤ 1 then false
  else
    (s.segments.drop 1).any (fun p =>
      Rect.colliderect
        ⟨pyInt s.segments.headI.1, pyInt s.segments.headI.2, s.segment_size, s.segment_size⟩
        ⟨pyInt p.1, pyInt p.2, s.segment_size, s.segment_size⟩)

/-- State of a single fruit (src/SnakeGame/src/fruit.py, `Fruit.__init__`). -/
structure Fruit where
  x : ℤ
  y : ℤ
  size : ℤ
  color : ℤ × ℤ × ℤ
  border_radius : ℤ
deriving DecidableEq

/-- State of `FruitGenerator` (fruit.py, `FruitGenerator.__init__` attributes).
The global `random` module is not part of the state; it is threaded through the
operations as an explicit stream. -/
structure FruitGenerator where
  screen_width : ℤ
  screen_height : ℤ
  grid_size : ℤ
  interval : ℚ
  fruits : List Fruit
  timer : ℚ
deriving DecidableEq

/-- `FruitGenerator.__init__` (fruit.py lines 66-77): empty fruit list and
timer starting at `interval`. -/
def FruitGenerator.init (screen_width screen_height grid_size : ℤ) (interval : ℚ) :
    FruitGenerator :=
  { screen_width := screen_width
    screen_height := screen_height
    grid_size := grid_size
    interval := interval
    fruits := []
    timer := interval }

/-- Python `round(.)` on a rational: round half to even. -/
def pyRound (q : ℚ) : ℤ :=
  if q - Rat.floor q < 1/2 then Rat.floor q
  else if 1/2 < q - Rat.floor q then Rat.floor q + 1
  else if Rat.floor q % 2 = 0 then Rat.floor q else Rat.floor q + 1

/-- `random.randrange(0, stop, step)` from a value `r` of the abstract random
stream: `step` times a residue below `(stop + step - 1) // step`, which is the
exact support of the Python call (Python raises on an empty range; the
theorems below only use nonempty ranges). -/
def randrange_step (stop step : ℤ) (r : ℕ) : ℤ :=
  step * ((r : ℤ) % Int.fdiv (stop + step - 1) step)

/-- `FruitGenerator._overlaps_snake` (fruit.py lines 114-127): the candidate
cell equals some snake segment rounded to its nearest grid multiple. -/
def FruitGenerator.overlaps_snake (grid_size : ℤ) (x y : ℤ)
    (snake_segments : List (ℚ × ℚ)) : Bool :=
  snake_segments.any (fun p =>
    x == pyRound (p.1 / (grid_size : ℚ)) * grid_size &&
    y == pyRound (p.2 / (grid_size : ℚ)) * grid_size)

/-- The `for _ in range(max_attempts)` loop of `FruitGenerator._generate_fruit`
(fruit.py lines 100-109); `i` is the index of the next attempt in the random
stream, each attempt consuming two draws. -/
def FruitGenerator.place_attempts (screen_width screen_height grid_size : ℤ)
    (snake_segments : List (ℚ × ℚ)) (rng : ℕ → ℕ) : ℕ → ℕ → Option (ℤ × ℤ)
  | 0, _ => none
  | n + 1, i =>
    let x := randrange_step (screen_width - grid_size + 1) grid_size (rng (2 * i))
    let y := randrange_step (screen_height - grid_size + 1) grid_size (rng (2 * i + 1))
    if FruitGenerator.overlaps_snake grid_size x y snake_segments then
      FruitGenerator.place_attempts screen_width screen_height grid_size
        snake_segments rng n (i + 1)
    else some (x, y)

/-- `FruitGenerator._generate_fruit` (fruit.py lines 92-112): up to 100
attempts; on success append `Fruit(x, y, grid_size)`, otherwise only log a
warning and leave the state unchanged. -/
def FruitGenerator.generate_fruit (snake_segments : List (ℚ × ℚ)) (rng : ℕ → ℕ)
    (g : FruitGenerator) : FruitGenerator :=
  match FruitGenerator.place_attempts g.screen_width g.screen_height g.grid_size
      snake_segments rng 100 0 with
  | some xy =>
    { g with fruits := g.fruits ++
        [{ x := xy.1, y := xy.2, size := g.grid_size, color := (255, 50, 50),
           border_radius := 5 }] }
  | none => g

/-- `FruitGenerator.update` (fruit.py lines 79-90): subtract `delta_time` from
the timer unconditionally; when the timer is `<= 0`, generate once and reset
the timer to `interval`. -/
def FruitGenerator.update (delta_time : ℚ) (snake_segments : List (ℚ × ℚ))
    (rng : ℕ → ℕ) (g : FruitGenerator) : FruitGenerator :=
  let g1 : FruitGenerator := { g with timer := g.timer - delta_time }
  if g1.timer ≤ 0 then
    { FruitGenerator.generate_fruit snake_segments rng g1 with timer := g.interval }
  else g1

/-- The simulation state owned by the main loop of game.py: the snake, the
fruit generator and the `game_over` flag. -/
structure GameState where
  snake : Snake
  fruit_generator : FruitGenerator
  game_over : Bool
deriving DecidableEq

/-- The per-tick simulation block of `main` (game.py lines 137-156), for a tick
in which the start page is hidden and no countdown is active: when the game is
not over, first check boundary then self collision; on a collision only set
`game_over`; otherwise advance the snake, advance the fruit generator with the
snake segment list after the move, then remove every fruit whose rectangle
overlaps the head rectangle and call `grow` once per removed fruit. -/
def tick (delta_time : ℚ) (rng : ℕ → ℕ) (g : GameState) : GameState :=
  if g.game_over then g
  else if Snake.check_boundary_collision g.snake || Snake.check_self_collision g.snake then
    { g with game_over := true }
  else
    let s1 := Snake.update delta_time g.snake
    let fg1 := FruitGenerator.update delta_time s1.segments rng g.fruit_generator
    let hr : Rect := ⟨pyInt s1.segments.headI.1, pyInt s1.segments.headI.2,
      s1.segment_size, s1.segment_size⟩
    let eaten := fg1.fruits.filter (fun f => Rect.colliderect hr ⟨f.x, f.y, f.size, f.size⟩)
    let kept := fg1.fruits.filter (fun f => ! Rect.colliderect hr ⟨f.x, f.y, f.size, f.size⟩)
    { snake := eaten.foldl (fun t _ => Snake.grow t) s1
      fruit_generator := { fg1 with fruits := kept }
      game_over := false }

/-- Modelled from the spec: claim C2 reads the per-tick order as advancing
SnakeBody and FruitSpawner by the elapsed time first and only then checking
boundary and then self collision, with a collision ending the round and
short-circuiting fruit consumption.  This definition follows those words; it
is compared against `tick`, which embeds the code. -/
def tick_spec_order (delta_time : ℚ) (rng : ℕ → ℕ) (g : GameState) : GameState :=
  if g.game_over then g
  else
    let s1 := Snake.update delta_time g.snake
    let fg1 := FruitGenerator.update delta_time s1.segments rng g.fruit_generator
    if Snake.check_boundary_collision s1 || Snake.check_self_collision s1 then
      { snake := s1, fruit_generator := fg1, game_over := true }
    else
      let hr : Rect := ⟨pyInt s1.segments.headI.1, pyInt s1.segments.headI.2,
        s1.segment_size, s1.segment_size⟩
      let eaten := fg1.fruits.filter (fun f => Rect.colliderect hr ⟨f.x, f.y, f.size, f.size⟩)
      let kept := fg1.fruits.filter (fun f => ! Rect.colliderect hr ⟨f.x, f.y, f.size, f.size⟩)
      { snake := eaten.foldl (fun t _ => Snake.grow t) s1
        fruit_generator := { fg1 with fruits := kept }
        game_over := false }

/-- Modelled from the spec (section 7): construction is supposed to reject an
invariant-violating configuration with a configuration error.  The code
constructor `Snake.init` performs no such validation; this checked variant
follows the words of the spec and is compared against it. -/
def Snake.init_checked (screen_width screen_height : ℤ) (length : ℕ)
    (segment_size : ℤ) : Except String Snake :=
  if 0 < segment_size ∧ 0 < screen_width ∧ 0 < screen_height then
    Except.ok (Snake.init screen_width screen_height length segment_size)
  else Except.error "configuration error"

/-- Modelled from the spec (section 7), checked variant of
`FruitGenerator.init`; see `Snake.init_checked`. -/
def FruitGenerator.init_checked (screen_width screen_height grid_size : ℤ)
    (interval : ℚ) : Except String FruitGenerator :=
  if 0 < grid_size ∧ 0 < screen_width ∧ 0 < screen_height then
    Except.ok (FruitGenerator.init screen_width screen_height grid_size interval)
  else Except.error "configuration error"

/-- A concrete random stream used by witnesses and counterexamples. -/
def rngZero : ℕ → ℕ := fun _ => 0

/-- The default initial snake of the game (`Snake(800, 800)` in game.py). -/
def defaultSnake : Snake := Snake.init 800 800 3 20

/-- A reachable snake one cell above the bottom wall, moving down: three moves
down from the initial configuration. -/
def snakeNearWall : Snake :=
  { defaultSnake with segments := [(400, 780), (400, 760), (400, 740)] }

/-- Game state holding `snakeNearWall` with a fresh fruit generator. -/
def gameNearWall : GameState :=
  { snake := snakeNearWall
    fruit_generator := FruitGenerator.init 800 800 20 5
    game_over := false }

/-- The accumulator invariant together with the configuration facts needed to
carry it through an update. -/
def SnakeAccInv (s : Snake) : Prop :=
  0 < s.segment_size ∧ 0 ≤ s.speed ∧ 0 ≤ s.move_accumulator ∧
    s.move_accumulator < (s.segment_size : ℚ)

/-- The result of running a whole sequence of `Snake.update` calls, with
arbitrary elapsed-time arguments, from the default initial snake. -/
def applyUpdates (dts : List ℚ) : Snake :=
  dts.foldl (fun s dt => Snake.update dt s) defaultSnake

/-- The four direction vectors the key handler of game.py can request
(`KEY_TO_DIRECTION`, game.py lines 57-62). -/
def unit_directions : List (ℤ × ℤ) := [(0, -1), (0, 1), (-1, 0), (1, 0)]

/-- The sequence of stored directions produced by a sequence of
`change_direction` requests, starting from the direction held by `s`. -/
def direction_trace (s : Snake) (reqs : List (ℤ × ℤ)) : List (ℤ × ℤ) :=
  (reqs.scanl (fun t r => Snake.change_direction r t) s).map Snake.direction

/-- A snake whose head has just crossed the bottom wall (one further step down
from `snakeNearWall`); its boundary check is already true. -/
def snakeAtWall : Snake :=
  { defaultSnake with segments := [(400, 800), (400, 780), (400, 760)] }

/-- Game state holding `snakeAtWall` with a fresh fruit generator. -/
def gameAtWall : GameState :=
  { snake := snakeAtWall
    fruit_generator := FruitGenerator.init 800 800 20 5
    game_over := false }

lemma rat_floor_eq_floor (q : ℚ) : Rat.floor q = ⌊q⌋ := by
  rw [Rat.floor_def', Rat.floor_def]

lemma floor_div_eq_zero {A Z : ℚ} (hZ : 0 < Z) (h0 : 0 ≤ A) (h1 : A < Z) :
    ⌊A / Z⌋ = 0 := by
  rw [Int.floor_eq_zero_iff, Set.mem_Ico]
  exact ⟨div_nonneg h0 hZ.le, (div_lt_one hZ).mpr h1⟩

lemma one_le_floor_div {A Z : ℚ} (hZ : 0 < Z) (h : Z ≤ A) : 1 ≤ ⌊A / Z⌋ := by
  rw [Int.le_floor]
  exact_mod_cast (one_le_div hZ).mpr h

lemma sub_div_self_floor {A Z : ℚ} (hZ : Z ≠ 0) : ⌊(A - Z) / Z⌋ = ⌊A / Z⌋ - 1 := by
  rw [sub_div, div_self hZ, ← Int.floor_sub_one]

lemma Snake.loopStep_fields (s : Snake) :
    (Snake.loopStep s).segment_size = s.segment_size ∧
    (Snake.loopStep s).direction = s.direction ∧
    (Snake.loopStep s).speed = s.speed ∧
    (Snake.loopStep s).move_accumulator =
      s.move_accumulator - (s.segment_size : ℚ) := by
  unfold Snake.loopStep
  split <;> simp

lemma Snake.moveLoop_acc :
    ∀ (n : ℕ) (s : Snake), 0 < s.segment_size → 0 ≤ s.move_accumulator →
      (⌊s.move_accumulator / (s.segment_size : ℚ)⌋).toNat ≤ n →
      (Snake.moveLoop n s).move_accumulator =
        s.move_accumulator -
          ((⌊s.move_accumulator / (s.segment_size : ℚ)⌋ : ℤ) : ℚ) * (s.segment_size : ℚ) ∧
      (Snake.moveLoop n s).segment_size = s.segment_size ∧
      (Snake.moveLoop n s).speed = s.speed := by
  intro n
  induction n with
  | zero =>
    intro s hsz h0 hn
    have hZ : (0 : ℚ) < (s.segment_size : ℚ) := by exact_mod_cast hsz
    have hfl0 : 0 ≤ ⌊s.move_accumulator / (s.segment_size : ℚ)⌋ :=
      Int.floor_nonneg.mpr (div_nonneg h0 hZ.le)
    have : ⌊s.move_accumulator / (s.segment_size : ℚ)⌋ = 0 := by omega
    simp [Snake.moveLoop, this]
  | succ n ih =>
    intro s hsz h0 hn
    have hZ : (0 : ℚ) < (s.segment_size : ℚ) := by exact_mod_cast hsz
    rw [Snake.moveLoop]
    by_cases h : (s.segment_size : ℚ) ≤ s.move_accumulator
    · rw [if_pos h]
      obtain ⟨e1, e2, e3, e4⟩ := Snake.loopStep_fields s
      have h1 : 1 ≤ ⌊s.move_accumulator / (s.segment_size : ℚ)⌋ := one_le_floor_div hZ h
      have hacc' : 0 ≤ (Snake.loopStep s).move_accumulator := by
        rw [e4]; linarith
      have hfl' : ⌊(Snake.loopStep s).move_accumulator / ((Snake.loopStep s).segment_size : ℚ)⌋ =
          ⌊s.move_accumulator / (s.segment_size : ℚ)⌋ - 1 := by
        rw [e4, e1, sub_div_self_floor hZ.ne']
      have hsz' : 0 < (Snake.loopStep s).segment_size := by rw [e1]; exact hsz
      have hn' : (⌊(Snake.loopStep s).move_accumulator /
          ((Snake.loopStep s).segment_size : ℚ)⌋).toNat ≤ n := by
        rw [hfl']; omega
      obtain ⟨r1, r2, r3⟩ := ih (Snake.loopStep s) hsz' hacc' hn'
      refine ⟨?_, by rw [r2, e1], by rw [r3, e3]⟩
      rw [r1, hfl', e4, e1]
      push_cast
      ring
    · rw [if_neg h]
      have : ⌊s.move_accumulator / (s.segment_size : ℚ)⌋ = 0 :=
        floor_div_eq_zero hZ h0 (lt_of_not_le h)
      rw [this]
      simp

lemma Snake.loopStep_of_grow_zero (s : Snake) (hx hy : ℚ) (rest : List (ℚ × ℚ))
    (hgrow : s.grow_pending = 0) (hseg : s.segments = (hx, hy) :: rest) :
    (Snake.loopStep s).segments =
      (hx + (s.direction.1 : ℚ) * (s.segment_size : ℚ),
       hy + (s.direction.2 : ℚ) * (s.segment_size : ℚ)) :: ((hx, hy) :: rest).dropLast ∧
    (Snake.loopStep s).grow_pending = 0 := by
  unfold Snake.loopStep
  rw [if_neg (by omega)]
  constructor
  · simp only [hseg, List.headI, List.dropLast_cons₂]
  · exact hgrow

lemma Snake.moveLoop_spec :
    ∀ (n : ℕ) (s : Snake) (hx hy : ℚ) (rest : List (ℚ × ℚ)),
      0 < s.segment_size → 0 ≤ s.move_accumulator → s.grow_pending = 0 →
      s.segments = (hx, hy) :: rest →
      (⌊s.move_accumulator / (s.segment_size : ℚ)⌋).toNat ≤ n →
      (Snake.moveLoop n s).segments.length = s.segments.length ∧
      (Snake.moveLoop n s).segments.headI =
        (hx + ((⌊s.move_accumulator / (s.segment_size : ℚ)⌋ : ℤ) : ℚ) *
            (s.direction.1 : ℚ) * (s.segment_size : ℚ),
         hy + ((⌊s.move_accumulator / (s.segment_size : ℚ)⌋ : ℤ) : ℚ) *
            (s.direction.2 : ℚ) * (s.segment_size : ℚ)) ∧
      (Snake.moveLoop n s).direction = s.direction ∧
      (Snake.moveLoop n s).grow_pending = 0 := by
  intro n
  induction n with
  | zero =>
    intro s hx hy rest hsz h0 hgrow hseg hn
    have hZ : (0 : ℚ) < (s.segment_size : ℚ) := by exact_mod_cast hsz
    have hfl0 : 0 ≤ ⌊s.move_accumulator / (s.segment_size : ℚ)⌋ :=
      Int.floor_nonneg.mpr (div_nonneg h0 hZ.le)
    have hz0 : ⌊s.move_accumulator / (s.segment_size : ℚ)⌋ = 0 := by omega
    rw [Snake.moveLoop, hz0]
    simp [hseg, hgrow, List.headI]
  | succ n ih =>
    intro s hx hy rest hsz h0 hgrow hseg hn
    have hZ : (0 : ℚ) < (s.segment_size : ℚ) := by exact_mod_cast hsz
    rw [Snake.moveLoop]
    by_cases h : (s.segment_size : ℚ) ≤ s.move_accumulator
    · rw [if_pos h]
      obtain ⟨e1, e2, e3, e4⟩ := Snake.loopStep_fields s
      obtain ⟨eseg, egrow⟩ := Snake.loopStep_of_grow_zero s hx hy rest hgrow hseg
      have h1 : 1 ≤ ⌊s.move_accumulator / (s.segment_size : ℚ)⌋ := one_le_floor_div hZ h
      have hacc' : 0 ≤ (Snake.loopStep s).move_accumulator := by rw [e4]; linarith
      have hsz' : 0 < (Snake.loopStep s).segment_size := by rw [e1]; exact hsz
      have hfl' : ⌊(Snake.loopStep s).move_accumulator /
          ((Snake.loopStep s).segment_size : ℚ)⌋ =
          ⌊s.move_accumulator / (s.segment_size : ℚ)⌋ - 1 := by
        rw [e4, e1, sub_div_self_floor hZ.ne']
      have hn' : (⌊(Snake.loopStep s).move_accumulator /
          ((Snake.loopStep s).segment_size : ℚ)⌋).toNat ≤ n := by
        rw [hfl']; omega
      obtain ⟨r1, r2, r3, r4⟩ := ih (Snake.loopStep s)
        (hx + (s.direction.1 : ℚ) * (s.segment_size : ℚ))
        (hy + (s.direction.2 : ℚ) * (s.segment_size : ℚ))
        (((hx, hy) :: rest).dropLast) hsz' hacc' egrow eseg hn'
      refine ⟨?_, ?_, by rw [r3, e2], r4⟩
      · rw [r1, eseg, hseg]
        simp [List.length_dropLast]
      · rw [r2, hfl', e2, e1]
        push_cast
        rw [Prod.mk.injEq]
        exact ⟨by ring, by ring⟩
    · rw [if_neg h]
      have hz0 : ⌊s.move_accumulator / (s.segment_size : ℚ)⌋ = 0 :=
        floor_div_eq_zero hZ h0 (lt_of_not_le h)
      rw [hz0]
      simp [hseg, hgrow, List.headI]

lemma Snake.update_of_pos (s : Snake) (dt : ℚ) (h : 0 < dt) :
    Snake.update dt s = Snake.moveLoop
      (⌊(s.move_accumulator + s.speed * dt) / (s.segment_size : ℚ)⌋).toNat
      { s with move_accumulator := s.move_accumulator + s.speed * dt } := by
  rw [Snake.update, if_neg (not_le.mpr h)]
  rfl

/-- C1: from the default initial configuration (800x800 field, cell 20,
length 3, speed 20 px/s, direction down, head at (400, 60)), `update(1.0)`
performs exactly one cell step, giving head (400, 80) and length 3; in
general one head advance happens per full cell size accumulated, the head
moving `⌊(accumulator + speed*dt)/cell⌋` cells in the stored direction with
the length unchanged, and `update(2.0)` covers two cells in one call. -/
theorem snake_update_cell_stepping
    (s : Snake) (delta_time hx hy : ℚ) (rest : List (ℚ × ℚ))
    (hsize : 0 < s.segment_size) (hacc : 0 ≤ s.move_accumulator)
    (hspeed : 0 ≤ s.speed) (hdt : 0 < delta_time) (hgrow : s.grow_pending = 0)
    (hseg : s.segments = (hx, hy) :: rest) :
    (Snake.update delta_time s).segments.length = s.segments.length ∧
    (Snake.update delta_time s).segments.headI =
      (hx + ((⌊(s.move_accumulator + s.speed * delta_time) / (s.segment_size : ℚ)⌋ : ℤ) : ℚ) *
          (s.direction.1 : ℚ) * (s.segment_size : ℚ),
       hy + ((⌊(s.move_accumulator + s.speed * delta_time) / (s.segment_size : ℚ)⌋ : ℤ) : ℚ) *
          (s.direction.2 : ℚ) * (s.segment_size : ℚ)) ∧
    (Snake.update delta_time s).move_accumulator =
      s.move_accumulator + s.speed * delta_time -
        ((⌊(s.move_accumulator + s.speed * delta_time) / (s.segment_size : ℚ)⌋ : ℤ) : ℚ) *
          (s.segment_size : ℚ) ∧
    (Snake.update 1 defaultSnake).segments = [(400, 80), (400, 60), (400, 40)] ∧
    (Snake.update 1 defaultSnake).segments.length = 3 ∧
    (Snake.update 2 defaultSnake).segments = [(400, 100), (400, 80), (400, 60)] := by
  have hA1 : 0 ≤ s.move_accumulator + s.speed * delta_time :=
    add_nonneg hacc (mul_nonneg hspeed hdt.le)
  obtain ⟨l1, l2, l3, l4⟩ := Snake.moveLoop_spec
    (⌊(s.move_accumulator + s.speed * delta_time) / (s.segment_size : ℚ)⌋).toNat
    { s with move_accumulator := s.move_accumulator + s.speed * delta_time }
    hx hy rest hsize hA1 hgrow hseg (le_refl _)
  obtain ⟨a1, a2, a3⟩ := Snake.moveLoop_acc
    (⌊(s.move_accumulator + s.speed * delta_time) / (s.segment_size : ℚ)⌋).toNat
    { s with move_accumulator := s.move_accumulator + s.speed * delta_time }
    hsize hA1 (le_refl _)
  refine ⟨?_, ?_, ?_, by decide, by decide, by decide⟩
  · rw [Snake.update_of_pos s delta_time hdt]
    exact l1
  · rw [Snake.update_of_pos s delta_time hdt]
    exact l2
  · rw [Snake.update_of_pos s delta_time hdt]
    exact a1

theorem snake_update_cell_stepping_witness :
    (Snake.update 1 defaultSnake).segments.length = defaultSnake.segments.length :=
  (snake_update_cell_stepping defaultSnake 1 400 60 [(400, 40), (400, 20)]
    (by decide) (by decide) (by decide) (by decide) (by decide) (by decide)).1

lemma Snake.update_keeps_inv (s : Snake) (dt : ℚ) (h : SnakeAccInv s) :
    SnakeAccInv (Snake.update dt s) := by
  obtain ⟨hsz, hsp, h0, h1⟩ := h
  by_cases hdt : dt ≤ 0
  · rw [Snake.update, if_pos hdt]
    exact ⟨hsz, hsp, h0, h1⟩
  · have hdt' : 0 < dt := lt_of_not_le hdt
    have hA1 : 0 ≤ s.move_accumulator + s.speed * dt :=
      add_nonneg h0 (mul_nonneg hsp hdt'.le)
    obtain ⟨a1, a2, a3⟩ := Snake.moveLoop_acc
      (⌊(s.move_accumulator + s.speed * dt) / (s.segment_size : ℚ)⌋).toNat
      { s with move_accumulator := s.move_accumulator + s.speed * dt }
      hsz hA1 (le_refl _)
    rw [Snake.update_of_pos s dt hdt']
    have hZ : (0 : ℚ) < (s.segment_size : ℚ) := by exact_mod_cast hsz
    have hfle : ((⌊(s.move_accumulator + s.speed * dt) / (s.segment_size : ℚ)⌋ : ℤ) : ℚ) *
        (s.segment_size : ℚ) ≤ s.move_accumulator + s.speed * dt := by
      have := Int.floor_le ((s.move_accumulator + s.speed * dt) / (s.segment_size : ℚ))
      exact (le_div_iff₀ hZ).mp this
    have hflt : s.move_accumulator + s.speed * dt <
        (((⌊(s.move_accumulator + s.speed * dt) / (s.segment_size : ℚ)⌋ : ℤ) : ℚ) + 1) *
          (s.segment_size : ℚ) := by
      have := Int.lt_floor_add_one ((s.move_accumulator + s.speed * dt) / (s.segment_size : ℚ))
      exact (div_lt_iff₀ hZ).mp this
    refine ⟨by rw [a2]; exact hsz, by rw [a3]; exact hsp, ?_, ?_⟩
    · rw [a1]
      linarith
    · rw [a1, a2]
      nlinarith

lemma foldl_update_keeps_inv :
    ∀ (dts : List ℚ) (s : Snake), SnakeAccInv s →
      SnakeAccInv (dts.foldl (fun t dt => Snake.update dt t) s) := by
  intro dts
  induction dts with
  | nil => intro s h; exact h
  | cons dt dts ih =>
    intro s h
    exact ih (Snake.update dt s) (Snake.update_keeps_inv s dt h)

/-- C3: after any sequence of `update` calls with arbitrary elapsed times,
including zero and negative ones, starting from the initial state, the
accumulator satisfies `0 ≤ move_accumulator < cell_size`. -/
theorem accumulator_invariant (dts : List ℚ) :
    0 ≤ (applyUpdates dts).move_accumulator ∧
    (applyUpdates dts).move_accumulator < ((applyUpdates dts).segment_size : ℚ) := by
  have h0 : SnakeAccInv defaultSnake := by
    refine ⟨by decide, by decide, by decide, by decide⟩
  obtain ⟨_, _, h1, h2⟩ := foldl_update_keeps_inv dts defaultSnake h0
  exact ⟨h1, h2⟩

lemma Snake.is_opposite_self {d : ℤ × ℤ} (hd : d ≠ (0, 0)) :
    Snake.is_opposite d d = false := by
  rw [Bool.eq_false_iff]
  intro hc
  have hc' : d.1 = -d.1 ∧ d.2 = -d.2 := by simpa [Snake.is_opposite] using hc
  exact hd (Prod.ext_iff.mpr ⟨by omega, by omega⟩)

lemma Snake.change_direction_same (s : Snake) (hd : s.direction ≠ (0, 0)) :
    Snake.change_direction s.direction s = Snake.move_one_segment s := by
  simp [Snake.change_direction, Snake.is_opposite_self hd]

lemma Snake.move_one_segment_spec (s : Snake) (hx hy : ℚ) (rest : List (ℚ × ℚ))
    (hseg : s.segments = (hx, hy) :: rest) :
    (Snake.move_one_segment s).segments =
      (hx + (s.direction.1 : ℚ) * (s.segment_size : ℚ),
       hy + (s.direction.2 : ℚ) * (s.segment_size : ℚ)) :: ((hx, hy) :: rest).dropLast ∧
    (Snake.move_one_segment s).segments.length = s.segments.length ∧
    (Snake.move_one_segment s).move_accumulator = s.move_accumulator ∧
    (Snake.move_one_segment s).direction = s.direction ∧
    (Snake.move_one_segment s).grow_pending = s.grow_pending := by
  unfold Snake.move_one_segment
  refine ⟨?_, ?_, rfl, rfl, rfl⟩
  · simp only [hseg, List.headI, List.dropLast_cons₂]
  · simp [hseg, List.length_dropLast, List.headI]

/-- C4: a `change_direction` request equal to the current direction moves the
head by exactly one cell in the current direction and drops the tail, whatever
the value of the accumulator, leaving the accumulator and the stored direction
unchanged. -/
theorem acceleration_one_cell (s : Snake) (hx hy : ℚ) (rest : List (ℚ × ℚ))
    (hd : s.direction ≠ (0, 0)) (hseg : s.segments = (hx, hy) :: rest) :
    (Snake.change_direction s.direction s).segments =
      (hx + (s.direction.1 : ℚ) * (s.segment_size : ℚ),
       hy + (s.direction.2 : ℚ) * (s.segment_size : ℚ)) :: ((hx, hy) :: rest).dropLast ∧
    (Snake.change_direction s.direction s).segments.headI =
      (hx + (s.direction.1 : ℚ) * (s.segment_size : ℚ),
       hy + (s.direction.2 : ℚ) * (s.segment_size : ℚ)) ∧
    (Snake.change_direction s.direction s).move_accumulator = s.move_accumulator ∧
    (Snake.change_direction s.direction s).direction = s.direction := by
  rw [Snake.change_direction_same s hd]
  obtain ⟨e1, e2, e3, e4, e5⟩ := Snake.move_one_segment_spec s hx hy rest hseg
  exact ⟨e1, by rw [e1]; rfl, e3, e4⟩

theorem acceleration_one_cell_witness :
    (Snake.change_direction defaultSnake.direction defaultSnake).move_accumulator =
      defaultSnake.move_accumulator :=
  (acceleration_one_cell defaultSnake 400 60 [(400, 40), (400, 20)]
    (by decide) (by decide)).2.2.1

/-- C10: an acceleration move always drops the tail even when growth is
pending, it neither decrements `grow_pending` nor changes the length, and no
`change_direction` request ever changes `grow_pending`. -/
theorem acceleration_keeps_pending_growth (s : Snake) (hx hy : ℚ) (rest : List (ℚ × ℚ))
    (hd : s.direction ≠ (0, 0)) (hseg : s.segments = (hx, hy) :: rest) :
    (Snake.change_direction s.direction s).grow_pending = s.grow_pending ∧
    (Snake.change_direction s.direction s).segments =
      (hx + (s.direction.1 : ℚ) * (s.segment_size : ℚ),
       hy + (s.direction.2 : ℚ) * (s.segment_size : ℚ)) :: ((hx, hy) :: rest).dropLast ∧
    (Snake.change_direction s.direction s).segments.length = s.segments.length ∧
    (∀ nd : ℤ × ℤ, (Snake.change_direction nd s).grow_pending = s.grow_pending) := by
  have hsame := Snake.change_direction_same s hd
  obtain ⟨e1, e2, e3, e4, e5⟩ := Snake.move_one_segment_spec s hx hy rest hseg
  refine ⟨by rw [hsame]; exact e5, by rw [hsame]; exact e1, by rw [hsame]; exact e2, ?_⟩
  intro nd
  rw [Snake.change_direction]
  split
  · rfl
  · split
    · exact e5
    · rfl

theorem acceleration_keeps_pending_growth_witness :
    (Snake.change_direction { defaultSnake with grow_pending := 1 }.direction
      { defaultSnake with grow_pending := 1 }).grow_pending =
      { defaultSnake with grow_pending := 1 }.grow_pending :=
  (acceleration_keeps_pending_growth { defaultSnake with grow_pending := 1 } 400 60
    [(400, 40), (400, 20)] (by decide) (by decide)).1

lemma Snake.change_direction_direction (s : Snake) (nd : ℤ × ℤ) :
    (Snake.change_direction nd s).direction =
      if Snake.is_opposite s.direction nd then s.direction
      else if s.direction == nd then s.direction
      else nd := by
  unfold Snake.change_direction
  split_ifs <;> rfl

lemma unit_direction_step (d nd : ℤ × ℤ) (hd : d ∈ unit_directions)
    (hnd : nd ∈ unit_directions) :
    (if Snake.is_opposite d nd then d else if d == nd then d else nd) ∈ unit_directions ∧
    Snake.is_opposite d
      (if Snake.is_opposite d nd then d else if d == nd then d else nd) = false := by
  simp only [unit_directions] at hd hnd
  fin_cases hd <;> fin_cases hnd <;> decide

lemma direction_trace_cons (s : Snake) (r : ℤ × ℤ) (reqs : List (ℤ × ℤ)) :
    direction_trace s (r :: reqs) =
      s.direction :: direction_trace (Snake.change_direction r s) reqs := by
  rw [direction_trace, List.scanl_cons, direction_trace]
  rfl

lemma direction_trace_head (s : Snake) (reqs : List (ℤ × ℤ)) :
    (direction_trace s reqs).head? = some s.direction := by
  cases reqs <;> simp [direction_trace, List.scanl_cons, List.scanl_nil]

lemma chain_no_opposite :
    ∀ (reqs : List (ℤ × ℤ)) (s : Snake), s.direction ∈ unit_directions →
      (∀ r ∈ reqs, r ∈ unit_directions) →
      List.Chain' (fun a b => Snake.is_opposite a b = false) (direction_trace s reqs) := by
  intro reqs
  induction reqs with
  | nil =>
    intro s _ _
    simp [direction_trace, List.scanl_nil]
  | cons r rs ih =>
    intro s hs hr
    rw [direction_trace_cons, List.chain'_cons']
    have hstep := unit_direction_step s.direction r hs (hr r (by simp))
    constructor
    · intro y hy
      rw [direction_trace_head, Option.mem_def, Option.some_inj] at hy
      rw [← hy, Snake.change_direction_direction]
      exact hstep.2
    · apply ih
      · rw [Snake.change_direction_direction]
        exact hstep.1
      · intro x hx
        exact hr x (by simp [hx])

/-- C5: for every sequence of requests drawn from the four unit vectors, a
request opposite to the current direction leaves the snake state unchanged,
and the trace of stored directions never has two consecutive entries that are
exact opposites. -/
theorem no_reversal (s : Snake) (reqs : List (ℤ × ℤ))
    (hs : s.direction ∈ unit_directions) (hreqs : ∀ r ∈ reqs, r ∈ unit_directions) :
    (∀ r : ℤ × ℤ, Snake.is_opposite s.direction r = true → Snake.change_direction r s = s) ∧
    List.Chain' (fun a b => Snake.is_opposite a b = false) (direction_trace s reqs) := by
  constructor
  · intro r hopp
    rw [Snake.change_direction, if_pos hopp]
  · exact chain_no_opposite reqs s hs hreqs

theorem no_reversal_witness :
    Snake.change_direction (0, -1) defaultSnake = defaultSnake :=
  (no_reversal defaultSnake [(1, 0), (0, -1)] (by decide) (by decide)).1 (0, -1) (by decide)

lemma FruitGenerator.update_no_spawn (dt : ℚ) (segs : List (ℚ × ℚ)) (rng : ℕ → ℕ)
    (g : FruitGenerator) (h : 0 < g.timer - dt) :
    FruitGenerator.update dt segs rng g = { g with timer := g.timer - dt } := by
  unfold FruitGenerator.update
  exact if_neg (not_le.mpr h)

lemma FruitGenerator.update_spawn (dt : ℚ) (segs : List (ℚ × ℚ)) (rng : ℕ → ℕ)
    (g : FruitGenerator) (h : g.timer - dt ≤ 0) :
    FruitGenerator.update dt segs rng g =
      { FruitGenerator.generate_fruit segs rng { g with timer := g.timer - dt } with
        timer := g.interval } := by
  unfold FruitGenerator.update
  exact if_pos h

/-- C7: the countdown starts at `interval_seconds`; `update` subtracts the
elapsed time, leaving the fruit collection alone while the countdown stays
positive, and once it reaches `≤ 0` exactly one spawn cycle runs and the
countdown is reset to `interval_seconds` whatever the outcome; concretely,
with interval 5.0 an `update(4.9)` spawns nothing and leaves countdown 0.1,
and a further `update(0.2)` spawns exactly one fruit and resets it to 5.0. -/
theorem fruit_spawner_countdown (w h grid : ℤ) (interval : ℚ) (g : FruitGenerator)
    (dt : ℚ) (segs : List (ℚ × ℚ)) (rng : ℕ → ℕ) :
    (FruitGenerator.init w h grid interval).timer = interval ∧
    (0 < g.timer - dt →
      FruitGenerator.update dt segs rng g = { g with timer := g.timer - dt }) ∧
    (g.timer - dt ≤ 0 →
      (FruitGenerator.update dt segs rng g).timer = g.interval ∧
      (FruitGenerator.update dt segs rng g).fruits =
        (FruitGenerator.generate_fruit segs rng { g with timer := g.timer - dt }).fruits) ∧
    (FruitGenerator.update (49/10) defaultSnake.segments rngZero
        (FruitGenerator.init 800 800 20 5)).fruits = [] ∧
    (FruitGenerator.update (49/10) defaultSnake.segments rngZero
        (FruitGenerator.init 800 800 20 5)).timer = 1/10 ∧
    (FruitGenerator.update (1/5) defaultSnake.segments rngZero
      (FruitGenerator.update (49/10) defaultSnake.segments rngZero
        (FruitGenerator.init 800 800 20 5))).fruits.length = 1 ∧
    (FruitGenerator.update (1/5) defaultSnake.segments rngZero
      (FruitGenerator.update (49/10) defaultSnake.segments rngZero
        (FruitGenerator.init 800 800 20 5))).timer = 5 := by
  refine ⟨rfl, ?_, ?_, by decide, by decide, by decide, by decide⟩
  · intro hpos
    exact FruitGenerator.update_no_spawn dt segs rng g hpos
  · intro hle
    rw [FruitGenerator.update_spawn dt segs rng g hle]
    exact ⟨rfl, rfl⟩

theorem fruit_spawner_countdown_witness :
    FruitGenerator.update 1 [] rngZero (FruitGenerator.init 800 800 20 5) =
      { FruitGenerator.init 800 800 20 5 with
        timer := (FruitGenerator.init 800 800 20 5).timer - 1 } :=
  (fruit_spawner_countdown 800 800 20 5 (FruitGenerator.init 800 800 20 5)
    1 [] rngZero).2.1 (by decide)

/-- C8 counterexample: `FruitGenerator.update` has no guard for non-positive
elapsed time; with interval 5.0, `update(-1.0, [])` raises the countdown to
6.0 and therefore changes the spawner state, against the claim that any
`elapsed ≤ 0` update is a no-op. -/
theorem fruit_update_negative_dt_counterexample :
    (FruitGenerator.update (-1) [] rngZero (FruitGenerator.init 800 800 20 5)).timer = 6 ∧
    FruitGenerator.update (-1) [] rngZero (FruitGenerator.init 800 800 20 5) ≠
      FruitGenerator.init 800 800 20 5 := by
  exact ⟨by decide, by decide⟩

/-- C8 (amended): `Snake.update` treats `elapsed ≤ 0` as a no-op leaving the
snake unchanged; `FruitSpawner.update` has no such guard: while the countdown
stays positive it only subtracts the elapsed time (so a zero elapsed leaves
the state unchanged), but a negative elapsed increases the countdown and
changes the spawner state. -/
theorem nonpositive_elapsed_updates (s : Snake) (g : FruitGenerator)
    (segs : List (ℚ × ℚ)) (rng : ℕ → ℕ) (dt : ℚ) (hdt : dt ≤ 0) :
    Snake.update dt s = s ∧
    (0 < g.timer - dt →
      FruitGenerator.update dt segs rng g = { g with timer := g.timer - dt }) ∧
    (dt < 0 → 0 < g.timer → FruitGenerator.update dt segs rng g ≠ g) := by
  refine ⟨by rw [Snake.update, if_pos hdt], ?_, ?_⟩
  · intro hpos
    exact FruitGenerator.update_no_spawn dt segs rng g hpos
  · intro hneg htimer
    have hpos : 0 < g.timer - dt := by linarith
    rw [FruitGenerator.update_no_spawn dt segs rng g hpos]
    intro hc
    have h2 : g.timer - dt = g.timer := congrArg FruitGenerator.timer hc
    linarith

theorem nonpositive_elapsed_updates_witness :
    Snake.update 0 defaultSnake = defaultSnake :=
  (nonpositive_elapsed_updates defaultSnake (FruitGenerator.init 800 800 20 5) [] rngZero 0
    (by decide)).1

/-- C9 counterexample: both constructors happily accept a zero or negative
cell size and an out-of-range play field, storing the values as given, in
contrast with the spec-modelled checked constructors that reject them. -/
theorem construction_accepts_invalid_config :
    (Snake.init 800 800 3 0).segment_size = 0 ∧
    (Snake.init 800 800 3 (-20)).segment_size = -20 ∧
    (FruitGenerator.init 800 800 0 5).grid_size = 0 ∧
    Snake.init_checked 800 800 3 0 = Except.error "configuration error" ∧
    FruitGenerator.init_checked 800 800 0 5 = Except.error "configuration error" := by
  refine ⟨rfl, rfl, rfl, ?_, ?_⟩ <;> rfl

/-- C9 (amended): construction performs no validation at all: any
configuration, including a zero or negative cell size or play field, is
accepted and stored unchanged, with no error and no clamping. -/
theorem construction_stores_config_unchanged (w h size : ℤ) (length : ℕ) (interval : ℚ) :
    (Snake.init w h length size).segment_size = size ∧
    (Snake.init w h length size).screen_width = w ∧
    (Snake.init w h length size).screen_height = h ∧
    (Snake.init w h length size).segments.length = length ∧
    (FruitGenerator.init w h size interval).grid_size = size ∧
    (FruitGenerator.init w h size interval).screen_width = w ∧
    (FruitGenerator.init w h size interval).screen_height = h ∧
    (FruitGenerator.init w h size interval).interval = interval ∧
    (FruitGenerator.init w h size interval).timer = interval := by
  refine ⟨rfl, rfl, rfl, ?_, rfl, rfl, rfl, rfl, rfl⟩
  have hseg : (Snake.init w h length size).segments = (List.range length).map (fun (i : ℕ) =>
      (((Int.fdiv w 2 : ℤ) : ℚ), (((length : ℤ) * size - (i : ℤ) * size : ℤ) : ℚ))) := rfl
  rw [hseg, List.length_map, List.length_range]

lemma foldl_grow_segments :
    ∀ (l : List Fruit) (s : Snake),
      (l.foldl (fun t _ => Snake.grow t) s).segments = s.segments := by
  intro l
  induction l with
  | nil => intro s; rfl
  | cons f fs ih =>
    intro s
    rw [List.foldl_cons]
    rw [ih]
    rfl

/-- C2 counterexample: in the code the per-tick block checks collisions
before advancing.  From `gameNearWall` (head at (400, 780), moving down,
about to step onto the wall) a tick of one second leaves the round running,
while the claimed advance-then-check order would end it; the code only ends
the round one tick later. -/
theorem tick_order_counterexample :
    (tick 1 rngZero gameNearWall).game_over = false ∧
    (tick_spec_order 1 rngZero gameNearWall).game_over = true ∧
    (tick 1 rngZero (tick 1 rngZero gameNearWall)).game_over = true := by
  exact ⟨by decide, by decide, by decide⟩

/-- C2 (amended): in every Running tick the controller first checks boundary
collision, then self collision; if either holds the round transitions to
GameOver with SnakeBody and FruitSpawner not advanced and no fruit consumed
in that tick; only when neither holds does it advance SnakeBody and then
FruitSpawner by the elapsed time before consuming fruit. -/
theorem tick_collision_short_circuits (g : GameState) (dt : ℚ) (rng : ℕ → ℕ)
    (hrun : g.game_over = false) :
    ((Snake.check_boundary_collision g.snake || Snake.check_self_collision g.snake) = true →
      tick dt rng g = { g with game_over := true }) ∧
    ((Snake.check_boundary_collision g.snake || Snake.check_self_collision g.snake) = false →
      (tick dt rng g).game_over = false ∧
      (tick dt rng g).snake.segments = (Snake.update dt g.snake).segments ∧
      (tick dt rng g).fruit_generator.timer =
        (FruitGenerator.update dt (Snake.update dt g.snake).segments rng
          g.fruit_generator).timer) := by
  constructor
  · intro hcol
    rw [tick, if_neg (by simp [hrun]), if_pos hcol]
  · intro hcol
    rw [tick, if_neg (by simp [hrun]), if_neg (by simp [hcol])]
    refine ⟨rfl, ?_, rfl⟩
    exact foldl_grow_segments _ _

theorem tick_collision_short_circuits_witness :
    tick 1 rngZero gameAtWall = { gameAtWall with game_over := true } :=
  (tick_collision_short_circuits gameAtWall 1 rngZero rfl).1 (by decide)

lemma randrange_step_mem (W grid : ℤ) (r : ℕ) (hg : 0 < grid) (hWg : grid ≤ W) :
    grid ∣ randrange_step (W - grid + 1) grid r ∧
    0 ≤ randrange_step (W - grid + 1) grid r ∧
    randrange_step (W - grid + 1) grid r ≤ W - grid := by
  have harg : W - grid + 1 + grid - 1 = W := by ring
  unfold randrange_step
  rw [harg, Int.fdiv_eq_ediv _ hg.le]
  have hnpos : 0 < W / grid := by
    have := (Int.le_ediv_iff_mul_le hg (a := 1) (b := W)).mpr (by omega)
    omega
  have hmod0 : 0 ≤ (r : ℤ) % (W / grid) := Int.emod_nonneg _ (ne_of_gt hnpos)
  have hmodlt : (r : ℤ) % (W / grid) < W / grid := Int.emod_lt_of_pos _ hnpos
  refine ⟨dvd_mul_right grid _, mul_nonneg hg.le hmod0, ?_⟩
  have h2 : grid * (W / grid) ≤ W := by
    have hdm := Int.ediv_add_emod W grid
    have hm : 0 ≤ W % grid := Int.emod_nonneg W (ne_of_gt hg)
    linarith
  have h1 : grid * ((r : ℤ) % (W / grid)) ≤ grid * (W / grid - 1) :=
    mul_le_mul_of_nonneg_left (by omega) hg.le
  calc grid * ((r : ℤ) % (W / grid)) ≤ grid * (W / grid - 1) := h1
    _ = grid * (W / grid) - grid := by ring
    _ ≤ W - grid := by linarith

lemma place_attempts_some (W H grid : ℤ) (segs : List (ℚ × ℚ)) (rng : ℕ → ℕ) :
    ∀ (n i : ℕ) (x y : ℤ),
      FruitGenerator.place_attempts W H grid segs rng n i = some (x, y) →
      (∃ r1 : ℕ, x = randrange_step (W - grid + 1) grid r1) ∧
      (∃ r2 : ℕ, y = randrange_step (H - grid + 1) grid r2) ∧
      FruitGenerator.overlaps_snake grid x y segs = false := by
  intro n
  induction n with
  | zero =>
    intro i x y hsome
    simp [FruitGenerator.place_attempts] at hsome
  | succ n ih =>
    intro i x y hsome
    rw [FruitGenerator.place_attempts] at hsome
    by_cases hov : FruitGenerator.overlaps_snake grid
        (randrange_step (W - grid + 1) grid (rng (2 * i)))
        (randrange_step (H - grid + 1) grid (rng (2 * i + 1))) segs = true
    · rw [if_pos hov] at hsome
      exact ih (i + 1) x y hsome
    · rw [if_neg hov] at hsome
      rw [Option.some_inj, Prod.mk.injEq] at hsome
      obtain ⟨hx, hy⟩ := hsome
      subst hx
      subst hy
      exact ⟨⟨rng (2 * i), rfl⟩, ⟨rng (2 * i + 1), rfl⟩, Bool.eq_false_iff.mpr hov⟩

lemma place_attempts_none (W H grid : ℤ) (segs : List (ℚ × ℚ)) (rng : ℕ → ℕ)
    (hall : ∀ j : ℕ, FruitGenerator.overlaps_snake grid
      (randrange_step (W - grid + 1) grid (rng (2 * j)))
      (randrange_step (H - grid + 1) grid (rng (2 * j + 1))) segs = true) :
    ∀ (n i : ℕ), FruitGenerator.place_attempts W H grid segs rng n i = none := by
  intro n
  induction n with
  | zero => intro i; rfl
  | succ n ih =>
    intro i
    rw [FruitGenerator.place_attempts, if_pos (hall i)]
    exact ih (i + 1)

lemma pyRound_intCast (c : ℤ) : pyRound ((c : ℤ) : ℚ) = c := by
  have h1 : Rat.floor ((c : ℤ) : ℚ) = c := by
    rw [rat_floor_eq_floor]
    exact Int.floor_intCast c
  rw [pyRound, h1]
  rw [if_pos]
  rw [sub_self]
  norm_num

lemma not_mem_of_no_overlap (grid x y : ℤ) (segs : List (ℚ × ℚ)) (hg : grid ≠ 0)
    (hdx : grid ∣ x) (hdy : grid ∣ y)
    (hov : FruitGenerator.overlaps_snake grid x y segs = false) :
    ((x : ℚ), (y : ℚ)) ∉ segs := by
  intro hmem
  obtain ⟨a, rfl⟩ := hdx
  obtain ⟨b, rfl⟩ := hdy
  have hgq : ((grid : ℤ) : ℚ) ≠ 0 := Int.cast_ne_zero.mpr hg
  have hxq : (((grid * a : ℤ) : ℚ)) / ((grid : ℤ) : ℚ) = ((a : ℤ) : ℚ) := by
    push_cast
    field_simp
  have hyq : (((grid * b : ℤ) : ℚ)) / ((grid : ℤ) : ℚ) = ((b : ℤ) : ℚ) := by
    push_cast
    field_simp
  have htrue : FruitGenerator.overlaps_snake grid (grid * a) (grid * b) segs = true := by
    rw [FruitGenerator.overlaps_snake, List.any_eq_true]
    refine ⟨(((grid * a : ℤ) : ℚ), ((grid * b : ℤ) : ℚ)), hmem, ?_⟩
    rw [hxq, hyq, pyRound_intCast, pyRound_intCast]
    simp [mul_comm]
  rw [htrue] at hov
  cases hov

/-- C6: a successful spawn appends one fruit whose cell is grid-aligned, lies
within `[0, play_width - cell] × [0, play_height - cell]` and does not sit on
any snake cell; the loop makes at most 100 attempts, and when every attempt
is rejected the spawn cycle is skipped with the generator left unchanged and
no failure signalled (the embedded operation is total). -/
theorem fruit_spawn_placement (g : FruitGenerator) (segs : List (ℚ × ℚ)) (rng : ℕ → ℕ)
    (hgrid : 0 < g.grid_size) (hW : g.grid_size ≤ g.screen_width)
    (hH : g.grid_size ≤ g.screen_height)
    (haligned : ∀ p ∈ segs, ∃ a b : ℤ,
      p = (((g.grid_size * a : ℤ) : ℚ), ((g.grid_size * b : ℤ) : ℚ))) :
    (∀ f : Fruit, (FruitGenerator.generate_fruit segs rng g).fruits = g.fruits ++ [f] →
      g.grid_size ∣ f.x ∧ g.grid_size ∣ f.y ∧
      0 ≤ f.x ∧ f.x ≤ g.screen_width - g.grid_size ∧
      0 ≤ f.y ∧ f.y ≤ g.screen_height - g.grid_size ∧
      ((f.x : ℚ), (f.y : ℚ)) ∉ segs) ∧
    ((FruitGenerator.generate_fruit segs rng g).fruits = g.fruits ∨
      ∃ f : Fruit, (FruitGenerator.generate_fruit segs rng g).fruits = g.fruits ++ [f]) ∧
    ((∀ j : ℕ, FruitGenerator.overlaps_snake g.grid_size
        (randrange_step (g.screen_width - g.grid_size + 1) g.grid_size (rng (2 * j)))
        (randrange_step (g.screen_height - g.grid_size + 1) g.grid_size (rng (2 * j + 1)))
        segs = true) →
      FruitGenerator.generate_fruit segs rng g = g) := by
  refine ⟨?_, ?_, ?_⟩
  · intro f hf
    cases hpa : FruitGenerator.place_attempts g.screen_width g.screen_height g.grid_size
        segs rng 100 0 with
    | none =>
      simp only [FruitGenerator.generate_fruit, hpa] at hf
      simp at hf
    | some xy =>
      obtain ⟨x, y⟩ := xy
      simp only [FruitGenerator.generate_fruit, hpa] at hf
      have hfeq := List.append_cancel_left hf
      have hf2 : (⟨x, y, g.grid_size, (255, 50, 50), 5⟩ : Fruit) = f := by
        simpa using hfeq
      obtain ⟨⟨r1, hx⟩, ⟨r2, hy⟩, hov⟩ :=
        place_attempts_some g.screen_width g.screen_height g.grid_size segs rng 100 0 x y hpa
      subst hf2
      obtain ⟨d1, p1, p2⟩ := hx ▸ randrange_step_mem g.screen_width g.grid_size r1 hgrid hW
      obtain ⟨d2, q1, q2⟩ := hy ▸ randrange_step_mem g.screen_height g.grid_size r2 hgrid hH
      exact ⟨d1, d2, p1, p2, q1, q2,
        not_mem_of_no_overlap g.grid_size x y segs (ne_of_gt hgrid) d1 d2 hov⟩
  · cases hpa : FruitGenerator.place_attempts g.screen_width g.screen_height g.grid_size
        segs rng 100 0 with
    | none =>
      left
      simp only [FruitGenerator.generate_fruit, hpa]
    | some xy =>
      right
      refine ⟨⟨xy.1, xy.2, g.grid_size, (255, 50, 50), 5⟩, ?_⟩
      simp only [FruitGenerator.generate_fruit, hpa]
  · intro hall
    simp only [FruitGenerator.generate_fruit,
      place_attempts_none g.screen_width g.screen_height g.grid_size segs rng hall 100 0]

theorem fruit_spawn_placement_witness :
    (FruitGenerator.generate_fruit [((400 : ℚ), (60 : ℚ))] rngZero
        (FruitGenerator.init 800 800 20 5)).fruits =
      (FruitGenerator.init 800 800 20 5).fruits ∨
    ∃ f : Fruit, (FruitGenerator.generate_fruit [((400 : ℚ), (60 : ℚ))] rngZero
        (FruitGenerator.init 800 800 20 5)).fruits =
      (FruitGenerator.init 800 800 20 5).fruits ++ [f] :=
  (fruit_spawn_placement (FruitGenerator.init 800 800 20 5) [((400 : ℚ), (60 : ℚ))] rngZero
    (by decide) (by decide) (by decide)
    (by
      intro p hp
      rw [List.mem_singleton] at hp
      subst hp
      exact ⟨20, 3, by norm_num [FruitGenerator.init, Prod.ext_iff]⟩)).2.1
